import Mathlib

/-!
Verification development for the nagocheck inter-invocation state store:
the shm-backed durable store (`shared/store.go`, `nagocheck/resource.go`),
the flock-based mutual-exclusion guard (`shared/plugin.go`), the retry loop
(`RetryDuring`) and the invocation coordinator (`ExecutePersistentCheck`).

Shallow embedding conventions:
- File/region names and byte contents are modelled as `List Char`.
- The shm namespace is a partial map `List Char → Option (List Char)`;
  `none` means the region does not exist.
- Open flags keep only the bits the code combines that matter for the
  observable semantics: `O_CREATE`, `O_TRUNC`, and the access mode
  (write-capable or read-only).  `O_DSYNC`/`O_RSYNC` only affect I/O
  synchronisation and have no effect in this model.
- An access trace records every successful open and write, so that
  claims about attempted operations are observable.
- JSON marshalling is modelled concretely for the store shape that the
  checks actually persist (a struct of counter fields, cf.
  `interfaceStore` in `mod-system/interface.go`), restricted to the
  integer-valued fragment exercised by the counters.
-/

namespace Nagocheck

/-- Open-flag bits relevant to the model: `os.O_CREATE`, `os.O_TRUNC`, and
whether the access mode permits writing (`O_WRONLY`) or is read-only. -/
structure OpenFlags where
  oCreate : Bool
  oTrunc : Bool
  oWrite : Bool
deriving DecidableEq, Repr

/-- Access-trace events: every successful `shm.Open` and every successful
`file.Write` is recorded, making attempted saves observable. -/
inductive Event where
  | opened (name : List Char) (fl : OpenFlags)
  | wrote (name : List Char) (bytes : List Char)
deriving DecidableEq, Repr

/-- State of the shm namespace: the named durable regions and the access
trace of the current run. -/
structure Shm where
  regions : List Char → Option (List Char)
  trace : List Event

/-- Replaces the content of one region (creating it when absent). -/
def Shm.setRegion (s : Shm) (name content : List Char) : Shm :=
  { s with regions := fun m => if m = name then some content else s.regions m }

/-- Model of `shm.Open(name, flags, mode)` followed by reading the (post-open)
content: with `O_CREATE` an absent region is created empty; with `O_TRUNC` an
existing region's content is discarded.  Returns `none` when the region is
absent and `O_CREATE` is not set. -/
def shmOpen (s : Shm) (name : List Char) (fl : OpenFlags) : Option (Shm × List Char) :=
  match s.regions name with
  | some c =>
      let c' := if fl.oTrunc then [] else c
      some ({ s.setRegion name c' with trace := s.trace ++ [Event.opened name fl] }, c')
  | none =>
      if fl.oCreate then
        some ({ s.setRegion name [] with trace := s.trace ++ [Event.opened name fl] }, [])
      else none

/-- Model of `file.Write(bytes)` at offset 0 on a freshly opened handle: fails
when the handle was opened read-only (`EBADF`); otherwise overwrites the
region's bytes starting at offset 0, leaving any longer remnant in place
(truncation happens only at open time via `O_TRUNC`). -/
def fileWrite (s : Shm) (name : List Char) (fl : OpenFlags) (bs : List Char) : Option Shm :=
  if fl.oWrite then
    some { s.setRegion name (bs ++ ((s.regions name).getD []).drop bs.length) with
            trace := s.trace ++ [Event.wrote name bs] }
  else none

/-- Serialisation pair modelling `json.Marshal` / `json.Unmarshal` for one
store type. -/
structure Codec (α : Type) where
  marshal : α → List Char
  unmarshal : List Char → Option α

/-- Error cases of the durable-store operations. -/
inductive StoreError where
  | openFailed
  | writeFailed
  | decodeFailed
deriving DecidableEq, Repr

/-- Result of `LoadPersistentStore`: the updated shm state, the returned
error (if any) and the final value of the unmarshal target. -/
structure LoadResult (α : Type) where
  shm : Shm
  error : Option StoreError
  target : α

/-- Result of `SavePersistentStore`. -/
structure SaveResult where
  shm : Shm
  error : Option StoreError

/-- Flags used by `LoadPersistentStore` (`shared/store.go:33`):
`os.O_CREATE|os.O_RDONLY|syscall.O_DSYNC|syscall.O_RSYNC`. -/
def loadStoreFlags : OpenFlags := { oCreate := true, oTrunc := false, oWrite := false }

/-- Flags used by `SavePersistentStore` (`shared/store.go:62`):
`os.O_CREATE|os.O_WRONLY|os.O_TRUNC|syscall.O_DSYNC|syscall.O_RSYNC`. -/
def saveStoreFlags : OpenFlags := { oCreate := true, oTrunc := true, oWrite := true }

/-- Embedding of `LoadPersistentStore` (`shared/store.go:32-51`): open with
create, read all bytes, and unmarshal only when the content is non-empty. -/
def LoadPersistentStore (c : Codec α) (s : Shm) (identifier : List Char) (v : α) :
    LoadResult α :=
  match shmOpen s identifier loadStoreFlags with
  | none => ⟨s, some StoreError.openFailed, v⟩
  | some (s₁, bytes) =>
    if bytes.length > 0 then
      match c.unmarshal bytes with
      | none => ⟨s₁, some StoreError.decodeFailed, v⟩
      | some v' => ⟨s₁, none, v'⟩
    else ⟨s₁, none, v⟩

/-- Embedding of `SavePersistentStore` (`shared/store.go:56-73`): marshal,
open with create+truncate+write, then write the bytes. -/
def SavePersistentStore (c : Codec α) (s : Shm) (identifier : List Char) (v : α) :
    SaveResult :=
  let bytes := c.marshal v
  match shmOpen s identifier saveStoreFlags with
  | none => ⟨s, some StoreError.openFailed⟩
  | some (s₁, _) =>
    match fileWrite s₁ identifier saveStoreFlags bytes with
    | none => ⟨s₁, some StoreError.writeFailed⟩
    | some s₂ => ⟨s₂, none⟩

/-- Embedding of `nagocheck/resource.go:27`:
`const shmOpenFlags = os.O_CREATE | os.O_RDONLY | syscall.O_DSYNC | syscall.O_RSYNC`.
Note the access mode is read-only and `O_TRUNC` is absent; `baseResource`
uses this single constant for both load and store. -/
def shmOpenFlags : OpenFlags := { oCreate := true, oTrunc := false, oWrite := false }

/-- State of a `baseResource` (`nagocheck/resource.go:20-25`): its persistence
key (empty string means persistence disabled) and its persisted fields. -/
structure BaseResource (α : Type) where
  persistenceKey : List Char
  state : α

/-- Embedding of `baseResource.loadPersistentData` (`nagocheck/resource.go:66-100`). -/
def loadPersistentData (c : Codec α) (s : Shm) (r : BaseResource α) :
    Shm × Option StoreError × BaseResource α :=
  if r.persistenceKey = [] then (s, none, r)
  else
    match shmOpen s r.persistenceKey shmOpenFlags with
    | none => (s, some StoreError.openFailed, r)
    | some (s₁, jsonData) =>
      if jsonData.length > 0 then
        match c.unmarshal jsonData with
        | none => (s₁, some StoreError.decodeFailed, r)
        | some v => (s₁, none, { r with state := v })
      else (s₁, none, r)

/-- Embedding of `baseResource.storePersistentData` (`nagocheck/resource.go:102-134`):
marshal the resource, open the region with `shmOpenFlags` (the same read-only,
non-truncating constant as the load path, cf. line 115) and write. -/
def storePersistentData (c : Codec α) (s : Shm) (r : BaseResource α) :
    Shm × Option StoreError :=
  if r.persistenceKey = [] then (s, none)
  else
    let jsonData := c.marshal r.state
    match shmOpen s r.persistenceKey shmOpenFlags with
    | none => (s, some StoreError.openFailed)
    | some (s₁, _) =>
      match fileWrite s₁ r.persistenceKey shmOpenFlags jsonData with
      | none => (s₁, some StoreError.writeFailed)
      | some s₂ => (s₂, none)

/-- Error disposition of `baseResource.Probe`: a wrapped load error, a wrapped
store error, or the probe callback's own error. -/
inductive ProbeError where
  | loadFailed (e : StoreError)
  | storeFailed (e : StoreError)
  | probeFailed
deriving DecidableEq, Repr

/-- Result of one `baseResource.Probe` run. -/
structure ProbeRunResult (α μ : Type) where
  shm : Shm
  resource : BaseResource α
  metrics : List μ
  error : Option ProbeError

/-- Embedding of `baseResource.Probe` (`nagocheck/resource.go:49-64`).  The
wrapped probe callback is a function from the resource's persisted state to
a new state, an optional error and the collected metrics.  On a load error
the callback never runs; on a probe error the method returns immediately
with the probe's metrics and error; only when the probe succeeds is
`storePersistentData` invoked, and its error returned. -/
def baseResourceProbe (c : Codec α) (probe : α → α × Option Unit × List μ)
    (s : Shm) (r : BaseResource α) : ProbeRunResult α μ :=
  match loadPersistentData c s r with
  | (s₁, some e, r₁) => ⟨s₁, r₁, [], some (ProbeError.loadFailed e)⟩
  | (s₁, none, r₁) =>
    match probe r₁.state with
    | (st, perr, metrics) =>
      let r₂ := { r₁ with state := st }
      match perr with
      | some _ => ⟨s₁, r₂, metrics, some ProbeError.probeFailed⟩
      | none =>
        match storePersistentData c s₁ r₂ with
        | (s₂, some e) => ⟨s₂, r₂, [], some (ProbeError.storeFailed e)⟩
        | (s₂, none) => ⟨s₂, r₂, metrics, none⟩

/-- Embedding of the key computed by `ResourcePersistence`
(`nagocheck/resource.go:43-47`): `r.persistenceKey = r.Plugin().Name() + uniqueKey`,
a direct concatenation with no separator and no case normalisation. -/
def ResourcePersistence (pluginName uniqueKey : List Char) : List Char :=
  pluginName ++ uniqueKey

/-- Embedding of the key computed by the revised `ResourcePersistence`
(`src/unnamed/part_006:62-67`):
`strings.ToLower(".nagocheck-" + r.Plugin().Name() + "-" + uniqueKey)`. -/
def ResourcePersistenceRev (pluginName uniqueKey : List Char) : List Char :=
  (".nagocheck-".data ++ pluginName ++ '-' :: uniqueKey).map Char.toLower

/-- State of the advisory file locks used by `go-flock`: whether the lock at
a given path is currently held, and whether the lock's backing file exists. -/
structure LockState where
  locked : List Char → Bool
  present : List Char → Bool

/-- Model of `flock.TryLock()`: creates the backing file when absent, then
takes the exclusive lock non-blockingly; returns `false` without blocking
when the lock is already held. -/
def tryLock (L : LockState) (path : List Char) : LockState × Bool :=
  let L₁ : LockState := { L with present := fun q => if q = path then true else L.present q }
  if L₁.locked path then (L₁, false)
  else ({ L₁ with locked := fun q => if q = path then true else L₁.locked q }, true)

/-- Model of `flock.Unlock()` for a held lock: releases the lock, leaving the
backing file in place. -/
def flockUnlock (L : LockState) (path : List Char) : LockState :=
  { L with locked := fun q => if q = path then false else L.locked q }

/-- Model of `syscall.Unlink(path)`: removes the backing file. -/
def unlink (L : LockState) (path : List Char) : LockState :=
  { L with present := fun q => if q = path then false else L.present q }

/-- Fatal (panicking) failure cases of `ExecutePersistentCheck`. -/
inductive PanicReason where
  | lockFailed
  | loadFailed (e : StoreError)
  | saveFailed (e : StoreError)
deriving DecidableEq, Repr

/-- Exit disposition of one coordinator run: a normal `os.Exit` with the
check's exit code, or a panic after the deferred unlock ran. -/
inductive RunOutcome where
  | exited (code : Nat)
  | panicked (r : PanicReason)
deriving DecidableEq, Repr

/-- Result of one `ExecutePersistentCheck` run. -/
structure ExecResult (σ : Type) where
  shm : Shm
  locks : LockState
  store : σ
  outcome : RunOutcome

/-- Store name used by `ExecutePersistentCheck` (`shared/plugin.go:127`):
the unique key gets the `nagocheck.` namespace pushed in front. -/
def persistentCheckKey (uniqueKey : List Char) : List Char :=
  "nagocheck.".data ++ uniqueKey

/-- Lock path used by `basePlugin.createFlock` (`shared/plugin.go:166-168`):
`fmt.Sprintf("/tmp/.%s.lock", identifier)` applied to the prefixed key. -/
def flockPath (identifier : List Char) : List Char :=
  "/tmp/.".data ++ identifier ++ ".lock".data

/-- Embedding of `basePlugin.ExecutePersistentCheck` (`shared/plugin.go:125-157`).
The check execution (`runtime.Execute`) is a caller-supplied total function on
the store — nagopher turns probe errors into a degraded verdict internally, so
at this level a run of the check always produces a mutated store and an exit
code.  Lock acquisition is modelled against a static environment: when the
lock is free, `ensureFlock`'s first `TryLock` succeeds; when it is held by
another process for the whole window, every retry fails and the loop returns
an error, which is `panic`ked.  Go runs deferred functions during a panic, so
the deferred `fileLock.Unlock()` executes on every panic path (for a lock we
hold; go-flock's `Unlock` is a no-op on a lock that was never obtained); the
explicit `syscall.Unlink` + `Unlock` pair runs only on the success path. -/
def ExecutePersistentCheck (c : Codec σ) (s : Shm) (L : LockState)
    (uniqueKey : List Char) (store : σ) (check : σ → σ × Nat) : ExecResult σ :=
  let key := persistentCheckKey uniqueKey
  let path := flockPath key
  let (L₁, ok) := tryLock L path
  if ok then
    match LoadPersistentStore c s key store with
    | ⟨s₁, some e, store₁⟩ =>
        ⟨s₁, flockUnlock L₁ path, store₁, RunOutcome.panicked (PanicReason.loadFailed e)⟩
    | ⟨s₁, none, store₁⟩ =>
      let (store₂, code) := check store₁
      match SavePersistentStore c s₁ key store₂ with
      | ⟨s₂, some e⟩ =>
          ⟨s₂, flockUnlock L₁ path, store₂, RunOutcome.panicked (PanicReason.saveFailed e)⟩
      | ⟨s₂, none⟩ =>
          ⟨s₂, flockUnlock (unlink L₁ path) path, store₂, RunOutcome.exited code⟩
  else
    ⟨s, L₁, store, RunOutcome.panicked PanicReason.lockFailed⟩

/-- Result of `RetryDuring` (`src/unnamed/part_016:107-126`): whether the
retried function eventually succeeded, how many attempts were made, and the
elapsed time at return. -/
structure RetryResult where
  success : Bool
  attempts : Nat
  elapsed : Nat
deriving DecidableEq, Repr

/-- Fuel-indexed loop of `RetryDuring`.  Time is explicit: attempt `k` of the
retried function takes `dur k` time units and succeeds iff `f k`; between a
failed attempt (that has not yet exhausted the timeout) and the next one the
loop sleeps `delay`.  The timeout check `deltaTime > timeout` happens after
the failed attempt and before the sleep, exactly as in the source.  The fuel
only serves Lean's termination checker; `retryGo_isSome` below shows it is
never exhausted for a positive delay. -/
def retryGo (timeout delay : Nat) (f : Nat → Bool) (dur : Nat → Nat) :
    Nat → Nat → Nat → Option RetryResult
  | 0, _, _ => none
  | fuel + 1, k, e =>
    let e' := e + dur k
    if f k then some ⟨true, k + 1, e'⟩
    else if timeout < e' then some ⟨false, k + 1, e'⟩
    else retryGo timeout delay f dur fuel (k + 1) (e' + delay)

/-- Embedding of `RetryDuring(timeout, delay, function)` starting at attempt 0
and elapsed time 0, with enough fuel for any positive delay. -/
def RetryDuring (timeout delay : Nat) (f : Nat → Bool) (dur : Nat → Nat) :
    Option RetryResult :=
  retryGo timeout delay f dur (timeout + 2) 0 0

/-- Total time spent inside the retried function over the attempt window
`[k, k+m)`. -/
def durSum (dur : Nat → Nat) : Nat → Nat → Nat
  | _, 0 => 0
  | k, m + 1 => dur k + durSum dur (k + 1) m

/-- Timeout passed by `basePlugin.ensureFlock` (`shared/plugin.go:171`):
`10*time.Second`, in milliseconds. -/
def ensureFlockTimeout : Nat := 10000

/-- Retry delay passed by `basePlugin.ensureFlock` (`shared/plugin.go:171`):
`100*time.Millisecond`, in milliseconds. -/
def ensureFlockDelay : Nat := 100

/-- Shm namespace with no regions and an empty access trace. -/
def emptyShm : Shm := ⟨fun _ => none, []⟩

/-- Shm namespace holding exactly one region with the given content. -/
def shmWith (name content : List Char) : Shm :=
  ⟨fun m => if m = name then some content else none, []⟩

/-- Lock table with no lock held and no lock file present. -/
def freeLocks : LockState := ⟨fun _ => false, fun _ => false⟩

/-- ASCII digit character for a single decimal digit. -/
def digitChar (d : Nat) : Char := Char.ofNat (48 + d)

/-- Numeric value of an ASCII digit character. -/
def charDigit (c : Char) : Nat := c.toNat - 48

/-- Decimal rendering of a natural number, as `json.Marshal` prints the
integer-valued counters of a store struct. -/
def natChars (n : Nat) : List Char :=
  if n = 0 then ['0'] else ((Nat.digits 10 n).reverse.map digitChar)

/-- Numeric value of a non-empty string of ASCII digits. -/
def parsedNat (cs : List Char) : Nat :=
  Nat.ofDigits 10 ((cs.map charDigit).reverse)

/-- Strips an expected literal from the front of the input, failing when the
input does not start with it. -/
def dropLeading : List Char → List Char → Option (List Char)
  | [], rest => some rest
  | _ :: _, [] => none
  | p :: ps, c :: cs => if c = p then dropLeading ps cs else none

/-- Reads a non-empty run of ASCII digits from the front of the input and
returns its numeric value together with the rest of the input. -/
def takeNum (cs : List Char) : Option (Nat × List Char) :=
  let ds := cs.takeWhile Char.isDigit
  if ds = [] then none else some (parsedNat ds, cs.dropWhile Char.isDigit)

/-- Store value persisted by the interface check (`mod-system/interface.go:195-198`):
two previous error counters.  The Go fields are `float64`, but the values the
check stores are integer counters, so the model uses the integer-valued
fragment of the JSON number grammar. -/
structure InterfaceStore where
  previousTxErrors : Nat
  previousRxErrors : Nat
deriving DecidableEq, Repr

/-- Leading part of the JSON object emitted by `json.Marshal` for
`interfaceStore`, up to the first value. -/
def txKey : List Char := "\x7b\"PreviousTxErrors\":".data

/-- Middle part of the JSON object, between the two values. -/
def rxKey : List Char := ",\"PreviousRxErrors\":".data

/-- Model of `json.Marshal` on `interfaceStore`: fields appear in declaration
order with their Go names. -/
def InterfaceStore.marshal (v : InterfaceStore) : List Char :=
  txKey ++ natChars v.previousTxErrors ++
    (rxKey ++ natChars v.previousRxErrors ++ "\x7d".data)

/-- Model of `json.Unmarshal` on `interfaceStore`: accepts exactly the objects
`marshal` produces and rejects everything else. -/
def InterfaceStore.unmarshal (cs : List Char) : Option InterfaceStore :=
  match dropLeading txKey cs with
  | none => none
  | some r₁ =>
    match takeNum r₁ with
    | none => none
    | some (a, r₂) =>
      match dropLeading rxKey r₂ with
      | none => none
      | some r₃ =>
        match takeNum r₃ with
        | none => none
        | some (b, r₄) =>
          if r₄ = "\x7d".data then some ⟨a, b⟩ else none

/-- Codec packaging the `interfaceStore` marshalling pair. -/
def interfaceCodec : Codec InterfaceStore :=
  ⟨InterfaceStore.marshal, InterfaceStore.unmarshal⟩

/-- Global state of `n` concurrent invocations of one persistent check on a
shared key: the advisory lock (its current holder, if any), the stored
counter value, and each invocation's program counter and local copy.  The
five program steps mirror the critical section of `ExecutePersistentCheck`:
0 = trying to acquire the flock, 1 = `Load`, 2 = mutate (+1), 3 = `Save`,
4 = release, 5 = finished. -/
structure GuardState (n : Nat) where
  lock : Option (Fin n)
  val : Nat
  pc : Fin n → Nat
  loc : Fin n → Nat

/-- Initial state: lock free, stored value `v₀`, every invocation at the
acquire step. -/
def initGuard (n : Nat) (v₀ : Nat) : GuardState n :=
  ⟨none, v₀, fun _ => 0, fun _ => 0⟩

/-- One scheduling step of invocation `p`.  A scheduled acquire attempt while
the lock is held fails without effect (`flock.TryLock` returns `false` and
the loop retries later); all other steps run under the lock that invocation
`p` acquired at step 0. -/
def guardStep (s : GuardState n) (p : Fin n) : GuardState n :=
  if s.pc p = 0 then
    if s.lock = none then
      { s with lock := some p, pc := Function.update s.pc p 1 }
    else s
  else if s.pc p = 1 then
    { s with loc := Function.update s.loc p s.val, pc := Function.update s.pc p 2 }
  else if s.pc p = 2 then
    { s with loc := Function.update s.loc p (s.loc p + 1), pc := Function.update s.pc p 3 }
  else if s.pc p = 3 then
    { s with val := s.loc p, pc := Function.update s.pc p 4 }
  else if s.pc p = 4 then
    { s with lock := none, pc := Function.update s.pc p 5 }
  else s

/-- Runs a whole schedule: an arbitrary interleaving of the invocations'
steps, each entry naming the invocation scheduled next. -/
def guardRun (s : GuardState n) : List (Fin n) → GuardState n
  | [] => s
  | p :: rest => guardRun (guardStep s p) rest

/-- Number of invocations that have finished (reached pc 5). -/
def doneCount (s : GuardState n) : Nat :=
  (Finset.univ.filter fun p => s.pc p = 5).card

/-- Predicate: invocation `p` is inside its Load→mutate→Save→release critical
section. -/
def inCS (s : GuardState n) (p : Fin n) : Prop :=
  1 ≤ s.pc p ∧ s.pc p ≤ 4

/-- Inductive invariant of the guarded counter system: the lock holder is the
only invocation inside the critical section, and the stored value counts the
completed increments (plus one while a save has happened but the lock is not
yet released). -/
def GuardInv (v₀ : Nat) (s : GuardState n) : Prop :=
  (s.lock = none → (∀ p, s.pc p = 0 ∨ s.pc p = 5) ∧ s.val = v₀ + doneCount s) ∧
  (∀ q, s.lock = some q →
    (∀ p, p ≠ q → s.pc p = 0 ∨ s.pc p = 5) ∧
    1 ≤ s.pc q ∧ s.pc q ≤ 4 ∧
    (s.pc q ≤ 3 → s.val = v₀ + doneCount s) ∧
    (s.pc q = 2 → s.loc q = s.val) ∧
    (s.pc q = 3 → s.loc q = s.val + 1) ∧
    (s.pc q = 4 → s.val = v₀ + doneCount s + 1))

lemma charDigit_digitChar {d : Nat} (hd : d < 10) : charDigit (digitChar d) = d := by
  interval_cases d <;> decide

lemma isDigit_digitChar {d : Nat} (hd : d < 10) : (digitChar d).isDigit = true := by
  interval_cases d <;> decide

lemma parsedNat_natChars (n : Nat) : parsedNat (natChars n) = n := by
  unfold natChars
  by_cases h : n = 0
  · subst h; decide
  · simp only [h, if_false]
    unfold parsedNat
    rw [List.map_map]
    have hmap : ((Nat.digits 10 n).reverse.map (charDigit ∘ digitChar)) =
        (Nat.digits 10 n).reverse := by
      rw [List.map_congr_left, List.map_id]
      intro d hd
      have : d < 10 := Nat.digits_lt_base (by norm_num) (List.mem_reverse.mp hd)
      exact charDigit_digitChar this
    rw [hmap, List.reverse_reverse, Nat.ofDigits_digits]

lemma natChars_ne_nil (n : Nat) : natChars n ≠ [] := by
  unfold natChars
  by_cases h : n = 0
  · simp [h]
  · simp only [h, if_false, ne_eq, List.map_eq_nil_iff, List.reverse_eq_nil_iff]
    exact Nat.digits_ne_nil_iff_ne_zero.mpr h

lemma isDigit_of_mem_natChars {c : Char} {n : Nat} (h : c ∈ natChars n) :
    c.isDigit = true := by
  unfold natChars at h
  by_cases h0 : n = 0
  · simp [h0] at h; subst h; decide
  · simp only [h0, if_false, List.mem_map, List.mem_reverse] at h
    obtain ⟨d, hd, rfl⟩ := h
    exact isDigit_digitChar (Nat.digits_lt_base (by norm_num) hd)

lemma dropLeading_append (p r : List Char) : dropLeading p (p ++ r) = some r := by
  induction p with
  | nil => rfl
  | cons a t ih => simp [dropLeading, ih]

lemma takeWhile_middle {p : Char → Bool} {l₁ : List Char} {c : Char} (l₂ : List Char)
    (h1 : ∀ x ∈ l₁, p x = true) (hc : p c = false) :
    (l₁ ++ c :: l₂).takeWhile p = l₁ ∧ (l₁ ++ c :: l₂).dropWhile p = c :: l₂ := by
  induction l₁ with
  | nil => simp [List.takeWhile_cons, List.dropWhile_cons, hc]
  | cons a t ih =>
    have ha : p a = true := h1 a (List.mem_cons_self a t)
    have ht := ih (fun x hx => h1 x (List.mem_cons_of_mem a hx))
    simp [List.takeWhile_cons, List.dropWhile_cons, ha, ht.1, ht.2]

lemma takeNum_append (l₁ : List Char) (c : Char) (l₂ : List Char)
    (h1 : ∀ x ∈ l₁, x.isDigit = true) (hne : l₁ ≠ []) (hc : c.isDigit = false) :
    takeNum (l₁ ++ c :: l₂) = some (parsedNat l₁, c :: l₂) := by
  obtain ⟨htake, hdrop⟩ := takeWhile_middle l₂ h1 hc
  unfold takeNum
  simp only [htake, hdrop, hne, if_false]

lemma unmarshal_marshal (v : InterfaceStore) :
    InterfaceStore.unmarshal (InterfaceStore.marshal v) = some v := by
  unfold InterfaceStore.marshal InterfaceStore.unmarshal
  simp only [List.append_assoc]
  rw [dropLeading_append]
  have hrx : rxKey ++ (natChars v.previousRxErrors ++ "\x7d".data) =
      ',' :: ("\"PreviousRxErrors\":".data ++ (natChars v.previousRxErrors ++ "\x7d".data)) :=
    rfl
  rw [hrx]
  dsimp only
  rw [takeNum_append _ ',' _ (fun x hx => isDigit_of_mem_natChars hx)
    (natChars_ne_nil _) (by decide)]
  dsimp only
  rw [← hrx, dropLeading_append]
  dsimp only
  rw [takeNum_append _ '\x7d' [] (fun x hx => isDigit_of_mem_natChars hx)
      (natChars_ne_nil _) (by decide)]
  simp [parsedNat_natChars]

lemma card_pc_update_ne5 {n : Nat} (pc : Fin n → Nat) (p : Fin n) (b : Nat)
    (ha : pc p ≠ 5) (hb : b ≠ 5) :
    (Finset.univ.filter fun q => Function.update pc p b q = 5).card =
    (Finset.univ.filter fun q => pc q = 5).card := by
  have hset : (Finset.univ.filter fun q => Function.update pc p b q = 5) =
      (Finset.univ.filter fun q => pc q = 5) := by
    ext q
    by_cases hq : q = p
    · subst hq; simp [Function.update_apply, ha, hb]
    · simp [Function.update_apply, hq]
  rw [hset]

lemma card_pc_update_to5 {n : Nat} (pc : Fin n → Nat) (p : Fin n) (ha : pc p ≠ 5) :
    (Finset.univ.filter fun q => Function.update pc p 5 q = 5).card =
    (Finset.univ.filter fun q => pc q = 5).card + 1 := by
  have hset : (Finset.univ.filter fun q => Function.update pc p 5 q = 5) =
      insert p (Finset.univ.filter fun q => pc q = 5) := by
    ext q
    by_cases hq : q = p
    · subst hq; simp [Function.update_apply]
    · simp [Function.update_apply, hq]
  rw [hset, Finset.card_insert_of_not_mem (by simp [ha])]

lemma guardInv_step {n v₀ : Nat} {s : GuardState n} (h : GuardInv v₀ s) (p : Fin n) :
    GuardInv v₀ (guardStep s p) := by
  obtain ⟨hnone, hsome⟩ := h
  by_cases h0 : s.pc p = 0
  · by_cases hl : s.lock = none
    · obtain ⟨hpcs, hval⟩ := hnone hl
      simp only [guardStep, h0, if_true, hl]
      refine ⟨fun hc => by simp at hc, fun q hq => ?_⟩
      have hqp : q = p := by simpa using hq.symm
      subst hqp
      have hdc : doneCount ⟨some q, s.val, Function.update s.pc q 1, s.loc⟩ =
          doneCount s := by
        simpa [doneCount] using card_pc_update_ne5 s.pc q 1 (by omega) (by omega)
      refine ⟨fun r hr => by simpa [Function.update_apply, hr] using hpcs r, ?_, ?_, ?_, ?_, ?_, ?_⟩
      · simp [Function.update_apply]
      · simp [Function.update_apply]
      · intro _; simpa [hdc] using hval
      · intro hc; simp [Function.update_apply] at hc
      · intro hc; simp [Function.update_apply] at hc
      · intro hc; simp [Function.update_apply] at hc
    · have hstep : guardStep s p = s := by simp [guardStep, h0, hl]
      rw [hstep]
      exact ⟨hnone, hsome⟩
  · have hlocked : ∀ k, s.pc p = k → 1 ≤ k → k ≤ 4 → s.lock = some p := by
      intro k hk h1 h4
      cases hl : s.lock with
      | none => rcases (hnone hl).1 p with h' | h' <;> omega
      | some q =>
        by_cases hpq : p = q
        · rw [hpq]
        · rcases (hsome q hl).1 p hpq with h' | h' <;> omega
    by_cases h1 : s.pc p = 1
    · have hlp : s.lock = some p := hlocked 1 h1 (by omega) (by omega)
      obtain ⟨hothers, _, _, hval3, _, _, _⟩ := hsome p hlp
      simp only [guardStep, h0, if_false, h1, if_true]
      refine ⟨fun hc => by rw [hlp] at hc; simp at hc, fun q hq => ?_⟩
      have hqp : q = p := by rw [hlp] at hq; simpa using hq.symm
      subst hqp
      have hdc : doneCount ⟨s.lock, s.val, Function.update s.pc q 2,
          Function.update s.loc q s.val⟩ = doneCount s := by
        simpa [doneCount] using card_pc_update_ne5 s.pc q 2 (by omega) (by omega)
      refine ⟨fun r hr => by simpa [Function.update_apply, hr] using hothers r hr, ?_, ?_, ?_, ?_, ?_, ?_⟩
      · simp [Function.update_apply]
      · simp [Function.update_apply]
      · intro _; simpa [hdc] using hval3 (by omega)
      · intro _; simp [Function.update_apply]
      · intro hc; simp [Function.update_apply] at hc
      · intro hc; simp [Function.update_apply] at hc
    · by_cases h2 : s.pc p = 2
      · have hlp : s.lock = some p := hlocked 2 h2 (by omega) (by omega)
        obtain ⟨hothers, _, _, hval3, hloc2, _, _⟩ := hsome p hlp
        simp only [guardStep, h0, if_false, h1, h2, if_true]
        refine ⟨fun hc => by rw [hlp] at hc; simp at hc, fun q hq => ?_⟩
        have hqp : q = p := by rw [hlp] at hq; simpa using hq.symm
        subst hqp
        have hdc : doneCount ⟨s.lock, s.val, Function.update s.pc q 3,
            Function.update s.loc q (s.loc q + 1)⟩ = doneCount s := by
          simpa [doneCount] using card_pc_update_ne5 s.pc q 3 (by omega) (by omega)
        refine ⟨fun r hr => by simpa [Function.update_apply, hr] using hothers r hr, ?_, ?_, ?_, ?_, ?_, ?_⟩
        · simp [Function.update_apply]
        · simp [Function.update_apply]
        · intro _; simpa [hdc] using hval3 (by omega)
        · intro hc; simp [Function.update_apply] at hc
        · intro _; simp [Function.update_apply, hloc2 h2]
        · intro hc; simp [Function.update_apply] at hc
      · by_cases h3 : s.pc p = 3
        · have hlp : s.lock = some p := hlocked 3 h3 (by omega) (by omega)
          obtain ⟨hothers, _, _, hval3, _, hloc3, _⟩ := hsome p hlp
          simp only [guardStep, if_neg h0, if_neg h1, if_neg h2, if_pos h3]
          refine ⟨fun hc => by rw [hlp] at hc; simp at hc, fun q hq => ?_⟩
          have hqp : q = p := by rw [hlp] at hq; simpa using hq.symm
          subst hqp
          have hdc : doneCount ⟨s.lock, s.loc q, Function.update s.pc q 4, s.loc⟩ =
              doneCount s := by
            simpa [doneCount] using card_pc_update_ne5 s.pc q 4 (by omega) (by omega)
          refine ⟨fun r hr => by simpa [Function.update_apply, hr] using hothers r hr, ?_, ?_, ?_, ?_, ?_, ?_⟩
          · simp [Function.update_apply]
          · simp [Function.update_apply]
          · intro hc; simp [Function.update_apply] at hc
          · intro hc; simp [Function.update_apply] at hc
          · intro hc; simp [Function.update_apply] at hc
          · intro _
            have hv := hval3 (by omega)
            have hl3 := hloc3 h3
            simp only [hdc]
            omega
        · by_cases h4 : s.pc p = 4
          · have hlp : s.lock = some p := hlocked 4 h4 (by omega) (by omega)
            obtain ⟨hothers, _, _, _, _, _, hval4⟩ := hsome p hlp
            simp only [guardStep, if_neg h0, if_neg h1, if_neg h2, if_neg h3, if_pos h4]
            have hdc : doneCount ⟨none, s.val, Function.update s.pc p 5, s.loc⟩ =
                doneCount s + 1 := by
              simpa [doneCount] using card_pc_update_to5 s.pc p (by omega)
            refine ⟨fun _ => ⟨?_, ?_⟩, fun q hq => by simp at hq⟩
            · intro r
              by_cases hr : r = p
              · subst hr; simp [Function.update_apply]
              · simpa [Function.update_apply, hr] using hothers r hr
            · simp only [hdc]
              have := hval4 h4
              omega
          · have hstep : guardStep s p = s := by simp [guardStep, h0, h1, h2, h3, h4]
            rw [hstep]
            exact ⟨hnone, hsome⟩

lemma guardInv_run {n v₀ : Nat} {s : GuardState n} (h : GuardInv v₀ s)
    (sched : List (Fin n)) : GuardInv v₀ (guardRun s sched) := by
  induction sched generalizing s with
  | nil => exact h
  | cons p rest ih => exact ih (guardInv_step h p)

lemma guardInv_init (n v₀ : Nat) : GuardInv v₀ (initGuard n v₀) := by
  refine ⟨fun _ => ⟨fun p => Or.inl rfl, ?_⟩, fun q hq => by simp [initGuard] at hq⟩
  simp [initGuard, doneCount]

lemma guardInv_mutex {n v₀ : Nat} {s : GuardState n} (h : GuardInv v₀ s) {p q : Fin n}
    (hp : inCS s p) (hq : inCS s q) : p = q := by
  obtain ⟨hp1, hp4⟩ := hp
  obtain ⟨hq1, hq4⟩ := hq
  cases hl : s.lock with
  | none => rcases (h.1 hl).1 p with h' | h' <;> omega
  | some r =>
    have hpr : p = r := by
      by_contra hne; rcases (h.2 r hl).1 p hne with h' | h' <;> omega
    have hqr : q = r := by
      by_contra hne; rcases (h.2 r hl).1 q hne with h' | h' <;> omega
    rw [hpr, hqr]

lemma guardInv_final {n v₀ : Nat} {s : GuardState n} (h : GuardInv v₀ s)
    (hall : ∀ p, s.pc p = 5) : s.val = v₀ + n := by
  cases hl : s.lock with
  | some q =>
    have := (h.2 q hl).2.2.1
    rw [hall q] at this
    omega
  | none =>
    have hval := (h.1 hl).2
    have hdc : doneCount s = n := by
      unfold doneCount
      have huniv : (Finset.univ.filter fun p => s.pc p = 5) = Finset.univ := by
        ext p; simp [hall p]
      rw [huniv, Finset.card_univ, Fintype.card_fin]
    omega

lemma retryGo_isSome {timeout delay : Nat} (f : Nat → Bool)
    (dur : Nat → Nat) :
    ∀ fuel k e, e ≤ timeout + delay → timeout + delay < e + fuel * delay →
      (retryGo timeout delay f dur fuel k e).isSome = true := by
  intro fuel
  induction fuel with
  | zero => intro k e h1 h2; simp at h2; omega
  | succ fuel ih =>
    intro k e h1 h2
    by_cases hf : f k
    · simp [retryGo, hf]
    · by_cases ht : timeout < e + dur k
      · simp [retryGo, hf, ht]
      · simp only [retryGo, hf, if_false, ht, Bool.false_eq_true]
        apply ih
        · omega
        · have hmul : (fuel + 1) * delay = fuel * delay + delay := by ring
          omega

lemma retryGo_spec {timeout delay : Nat} {f : Nat → Bool} {dur : Nat → Nat} :
    ∀ fuel k e r, retryGo timeout delay f dur fuel k e = some r →
      k < r.attempts ∧
      r.elapsed = e + durSum dur k (r.attempts - k) + (r.attempts - k - 1) * delay ∧
      (∀ i, k ≤ i → i + 1 < r.attempts → f i = false) ∧
      (r.success = true → f (r.attempts - 1) = true) ∧
      (r.success = false → f (r.attempts - 1) = false ∧ timeout < r.elapsed ∧
        (k + 2 ≤ r.attempts → e + (r.attempts - k - 2) * delay ≤ timeout)) := by
  intro fuel
  induction fuel with
  | zero => intro k e r h; simp [retryGo] at h
  | succ fuel ih =>
    intro k e r h
    by_cases hf : f k
    · simp only [retryGo, hf, if_true] at h
      obtain rfl : (⟨true, k + 1, e + dur k⟩ : RetryResult) = r := by
        simpa using h
      refine ⟨by dsimp only; omega, ?_, ?_, fun _ => by simpa using hf,
        fun hc => by simp at hc⟩
      · simp [durSum]
      · intro i hi hi'; dsimp only at hi'; omega
    · by_cases ht : timeout < e + dur k
      · simp only [retryGo, hf, if_false, ht, if_true, Bool.false_eq_true] at h
        obtain rfl : (⟨false, k + 1, e + dur k⟩ : RetryResult) = r := by
          simpa using h
        refine ⟨by dsimp only; omega, ?_, ?_, fun hc => by simp at hc, fun _ => ?_⟩
        · simp [durSum]
        · intro i hi hi'; dsimp only at hi'; omega
        · exact ⟨by simpa using hf, by simpa using ht,
            fun hc => absurd hc (by dsimp only; omega)⟩
      · simp only [retryGo, hf, if_false, ht, Bool.false_eq_true] at h
        obtain ⟨ha, hel, hmono, hsucc, hfail⟩ := ih (k + 1) (e + dur k + delay) r h
        have hm1 : 1 ≤ r.attempts - (k + 1) := by omega
        obtain ⟨m, hm⟩ := Nat.exists_eq_add_of_le hm1
        refine ⟨by omega, ?_, ?_, hsucc, ?_⟩
        · have hm' : r.attempts - (k + 1) = m + 1 := by omega
          rw [hm'] at hel
          have h1 : m + 1 - 1 = m := by omega
          rw [h1] at hel
          have hnk : r.attempts - k = m + 1 + 1 := by omega
          rw [hnk, durSum]
          have h3 : m + 1 + 1 - 1 = m + 1 := by omega
          rw [h3]
          have hdist : (m + 1) * delay = m * delay + delay := by ring
          omega
        · intro i hi hi'
          rcases Nat.eq_or_lt_of_le hi with hik | hik
          · rw [← hik]; simpa using hf
          · exact hmono i hik hi'
        · intro hsf
          obtain ⟨hflast, htime, hbound⟩ := hfail hsf
          refine ⟨hflast, htime, fun h2k => ?_⟩
          rcases Nat.lt_or_ge r.attempts (k + 3) with hk3 | hk3
          · have : r.attempts - k - 2 = 0 := by omega
            rw [this]
            omega
          · have hb := hbound (by omega)
            have he1 : r.attempts - (k + 1) - 2 = r.attempts - k - 3 := by omega
            rw [he1] at hb
            have he2 : r.attempts - k - 2 = (r.attempts - k - 3) + 1 := by omega
            rw [he2]
            have hdist : ((r.attempts - k - 3) + 1) * delay =
                (r.attempts - k - 3) * delay + delay := by ring
            omega

lemma marshal_ne_nil (v : InterfaceStore) : InterfaceStore.marshal v ≠ [] := by
  unfold InterfaceStore.marshal
  exact List.append_ne_nil_of_right_ne_nil _
    (List.append_ne_nil_of_right_ne_nil _ (by decide))

lemma append_cons_sep_inj {c : Char} :
    ∀ {u₁ u₂ v₁ v₂ : List Char}, c ∉ u₁ → c ∉ u₂ →
      u₁ ++ c :: v₁ = u₂ ++ c :: v₂ → u₁ = u₂ ∧ v₁ = v₂ := by
  intro u₁
  induction u₁ with
  | nil =>
    intro u₂ v₁ v₂ _ hu₂ h
    cases u₂ with
    | nil => simpa using h
    | cons b t =>
      simp only [List.nil_append, List.cons_append, List.cons.injEq] at h
      exact absurd (h.1 ▸ List.mem_cons_self b t) hu₂
  | cons a t ih =>
    intro u₂ v₁ v₂ hu₁ hu₂ h
    cases u₂ with
    | nil =>
      simp only [List.nil_append, List.cons_append, List.cons.injEq] at h
      exact absurd (h.1 ▸ List.mem_cons_self a t) hu₁
    | cons b t' =>
      simp only [List.cons_append, List.cons.injEq] at h
      obtain ⟨rfl, h2⟩ := h
      obtain ⟨h3, h4⟩ := ih (fun hm => hu₁ (List.mem_cons_of_mem a hm))
        (fun hm => hu₂ (List.mem_cons_of_mem a hm)) h2
      exact ⟨by rw [h3], h4⟩

lemma shmOpen_create_some (s : Shm) (name : List Char) (fl : OpenFlags)
    (hc : fl.oCreate = true) :
    ∃ s' bs, shmOpen s name fl = some (s', bs) ∧ s'.regions name = some bs := by
  rcases hreg : s.regions name with _ | c
  · exact ⟨{ s.setRegion name [] with trace := s.trace ++ [Event.opened name fl] }, [],
      by simp [shmOpen, hreg, hc], by simp [Shm.setRegion]⟩
  · exact ⟨{ s.setRegion name (if fl.oTrunc then [] else c) with
        trace := s.trace ++ [Event.opened name fl] }, if fl.oTrunc then [] else c,
      by simp [shmOpen, hreg], by simp [Shm.setRegion]⟩

lemma load_shm_region {α : Type} (c : Codec α) (s : Shm) (id : List Char) (v : α) :
    ∃ bs, (LoadPersistentStore c s id v).shm.regions id = some bs := by
  obtain ⟨s', bs, hopen, hreg⟩ := shmOpen_create_some s id loadStoreFlags rfl
  unfold LoadPersistentStore
  rw [hopen]
  dsimp only
  by_cases hlen : bs.length > 0
  · simp only [hlen, if_true]
    cases hum : c.unmarshal bs <;> exact ⟨bs, hreg⟩
  · simp only [hlen, if_false]
    exact ⟨bs, hreg⟩

lemma loadPersistentData_shm_region {α : Type} (c : Codec α) (s : Shm)
    (r : BaseResource α) (hk : r.persistenceKey ≠ []) :
    ∃ bs, (loadPersistentData c s r).1.regions r.persistenceKey = some bs := by
  obtain ⟨s', bs, hopen, hreg⟩ := shmOpen_create_some s r.persistenceKey shmOpenFlags rfl
  unfold loadPersistentData
  rw [if_neg hk, hopen]
  dsimp only
  by_cases hlen : bs.length > 0
  · simp only [hlen, if_true]
    cases hum : c.unmarshal bs <;> exact ⟨bs, hreg⟩
  · simp only [hlen, if_false]
    exact ⟨bs, hreg⟩

lemma load_target_of_decodable {α : Type} (c : Codec α) (s : Shm) (id : List Char)
    (v : α) (bs : List Char) (w : α) (hreg : s.regions id = some bs) (hne : bs ≠ [])
    (hum : c.unmarshal bs = some w) :
    (LoadPersistentStore c s id v).error = none ∧
    (LoadPersistentStore c s id v).target = w := by
  have hlen : bs.length > 0 := List.length_pos.mpr hne
  simp [LoadPersistentStore, shmOpen, hreg, loadStoreFlags, hlen, hum]

/-- C7: for every target value and every key whose durable region is absent or
empty, a load returns no error and leaves the target exactly at its
caller-provided default value — no decode is attempted on empty content.
Proved for both `LoadPersistentStore` (`shared/store.go:32-51`) and
`baseResource.loadPersistentData` (`nagocheck/resource.go:66-100`). -/
theorem load_default_on_absent_or_empty :
    (∀ {α : Type} (c : Codec α) (s : Shm) (id : List Char) (v : α),
      s.regions id = none ∨ s.regions id = some [] →
      (LoadPersistentStore c s id v).error = none ∧
      (LoadPersistentStore c s id v).target = v) ∧
    (∀ {α : Type} (c : Codec α) (s : Shm) (r : BaseResource α),
      s.regions r.persistenceKey = none ∨ s.regions r.persistenceKey = some [] →
      (loadPersistentData c s r).2.1 = none ∧ (loadPersistentData c s r).2.2 = r) := by
  constructor
  · intro α c s id v h
    rcases h with h | h <;>
      simp [LoadPersistentStore, shmOpen, h, loadStoreFlags]
  · intro α c s r h
    by_cases hk : r.persistenceKey = []
    · simp [loadPersistentData, hk]
    · rcases h with h | h <;>
        simp [loadPersistentData, hk, shmOpen, h, shmOpenFlags]

/-- Witness for C7 at concrete inputs: a load from an absent region and a load
from an existing empty region both succeed and leave the target at its
default. -/
theorem load_default_on_absent_or_empty_witness :
    ((LoadPersistentStore interfaceCodec emptyShm "w7".data ⟨3, 4⟩).error = none ∧
      (LoadPersistentStore interfaceCodec emptyShm "w7".data ⟨3, 4⟩).target = ⟨3, 4⟩) ∧
    ((loadPersistentData interfaceCodec (shmWith "w7".data []) ⟨"w7".data, ⟨5, 6⟩⟩).2.1 =
        none ∧
      (loadPersistentData interfaceCodec (shmWith "w7".data []) ⟨"w7".data, ⟨5, 6⟩⟩).2.2 =
        ⟨"w7".data, ⟨5, 6⟩⟩) :=
  ⟨load_default_on_absent_or_empty.1 interfaceCodec emptyShm "w7".data ⟨3, 4⟩
      (Or.inl rfl),
    load_default_on_absent_or_empty.2 interfaceCodec (shmWith "w7".data [])
      ⟨"w7".data, ⟨5, 6⟩⟩ (Or.inr (by decide))⟩

/-- C8: for every encodable value `v` (here: every `interfaceStore` value, the
store shape the checks persist), `Save` followed by `Load` into a fresh
default-valued target succeeds and yields a target equal to `v` — the
serialize-then-deserialize round-trip through the durable region is the
identity. -/
theorem save_then_load_roundtrip (s : Shm) (id : List Char) (v d : InterfaceStore) :
    (SavePersistentStore interfaceCodec s id v).error = none ∧
    (LoadPersistentStore interfaceCodec (SavePersistentStore interfaceCodec s id v).shm
      id d).error = none ∧
    (LoadPersistentStore interfaceCodec (SavePersistentStore interfaceCodec s id v).shm
      id d).target = v := by
  have hsave : (SavePersistentStore interfaceCodec s id v).shm.regions id =
      some (InterfaceStore.marshal v) ∧
      (SavePersistentStore interfaceCodec s id v).error = none := by
    unfold SavePersistentStore
    rcases hreg : s.regions id with _ | c <;>
      simp [shmOpen, hreg, saveStoreFlags, fileWrite, Shm.setRegion, interfaceCodec]
  have hload := load_target_of_decodable interfaceCodec
    (SavePersistentStore interfaceCodec s id v).shm id d (InterfaceStore.marshal v) v
    hsave.1 (marshal_ne_nil v) (by simpa [interfaceCodec] using unmarshal_marshal v)
  exact ⟨hsave.2, hload.1, hload.2⟩

lemma load_undecodable_eq {α : Type} (c : Codec α) (s : Shm) (id : List Char) (v : α)
    (bs : List Char) (hreg : s.regions id = some bs) (hne : bs ≠ [])
    (hum : c.unmarshal bs = none) :
    LoadPersistentStore c s id v =
      ⟨{ s.setRegion id bs with trace := s.trace ++ [Event.opened id loadStoreFlags] },
        some StoreError.decodeFailed, v⟩ := by
  have hlen : bs.length > 0 := List.length_pos.mpr hne
  have ht : loadStoreFlags.oTrunc = false := rfl
  simp [LoadPersistentStore, shmOpen, hreg, ht, hlen, hum]

/-- C10: the load path is not read-only — it opens the durable region with
`O_CREATE`, so after any load the region for that key exists, even when it did
not exist before.  Proved for `LoadPersistentStore` (`shared/store.go:32-37`)
and for `baseResource.loadPersistentData` with a configured persistence key
(`nagocheck/resource.go:66-100`, flags from `nagocheck/resource.go:27`). -/
theorem load_creates_region :
    (∀ {α : Type} (c : Codec α) (s : Shm) (id : List Char) (v : α),
      ((LoadPersistentStore c s id v).shm.regions id).isSome = true) ∧
    (∀ {α : Type} (c : Codec α) (s : Shm) (r : BaseResource α),
      r.persistenceKey ≠ [] →
      ((loadPersistentData c s r).1.regions r.persistenceKey).isSome = true) := by
  constructor
  · intro α c s id v
    obtain ⟨bs, hbs⟩ := load_shm_region c s id v
    simp [hbs]
  · intro α c s r hk
    obtain ⟨bs, hbs⟩ := loadPersistentData_shm_region c s r hk
    simp [hbs]

/-- Witness for C10: loading a never-written key from an empty shm namespace
leaves the region existing, on both load paths. -/
theorem load_creates_region_witness :
    ((LoadPersistentStore interfaceCodec emptyShm "w10".data ⟨0, 0⟩).shm.regions
        "w10".data).isSome = true ∧
    ((loadPersistentData interfaceCodec emptyShm ⟨"w10b".data, ⟨0, 0⟩⟩).1.regions
        "w10b".data).isSome = true :=
  ⟨load_creates_region.1 interfaceCodec emptyShm "w10".data ⟨0, 0⟩,
    load_creates_region.2 interfaceCodec emptyShm ⟨"w10b".data, ⟨0, 0⟩⟩ (by decide)⟩

/-- C9: for every key whose durable region holds non-empty but undecodable
content, `Load` returns an error and leaves the target untouched (no silent
reset to the default), and the coordinator `ExecutePersistentCheck` treats the
load error as fatal, panicking before the check runs. -/
theorem load_undecodable_fatal :
    (∀ {α : Type} (c : Codec α) (s : Shm) (id : List Char) (v : α) (bs : List Char),
      s.regions id = some bs → bs ≠ [] → c.unmarshal bs = none →
      (LoadPersistentStore c s id v).error = some StoreError.decodeFailed ∧
      (LoadPersistentStore c s id v).target = v) ∧
    (∀ {σ : Type} (c : Codec σ) (s : Shm) (L : LockState) (uk : List Char) (store : σ)
      (check : σ → σ × Nat) (bs : List Char),
      s.regions (persistentCheckKey uk) = some bs → bs ≠ [] → c.unmarshal bs = none →
      L.locked (flockPath (persistentCheckKey uk)) = false →
      (ExecutePersistentCheck c s L uk store check).outcome =
        RunOutcome.panicked (PanicReason.loadFailed StoreError.decodeFailed) ∧
      (ExecutePersistentCheck c s L uk store check).store = store) := by
  constructor
  · intro α c s id v bs hreg hne hum
    rw [load_undecodable_eq c s id v bs hreg hne hum]
    exact ⟨rfl, rfl⟩
  · intro σ c s L uk store check bs hreg hne hum hL
    have hLP := load_undecodable_eq c s (persistentCheckKey uk) store bs hreg hne hum
    unfold ExecutePersistentCheck
    simp only [tryLock, hL]
    rw [hLP]
    exact ⟨rfl, rfl⟩

/-- Witness for C9 at concrete undecodable content `"x"`: the load errors with
a decode failure leaving the target at its default, and the coordinator run
panics. -/
theorem load_undecodable_fatal_witness :
    ((LoadPersistentStore interfaceCodec (shmWith "w9k".data "x".data) "w9k".data
        ⟨7, 8⟩).error = some StoreError.decodeFailed ∧
      (LoadPersistentStore interfaceCodec (shmWith "w9k".data "x".data) "w9k".data
        ⟨7, 8⟩).target = ⟨7, 8⟩) ∧
    ((ExecutePersistentCheck interfaceCodec
        (shmWith (persistentCheckKey "w9".data) "x".data) freeLocks "w9".data ⟨7, 8⟩
        (fun st => (st, 0))).outcome =
      RunOutcome.panicked (PanicReason.loadFailed StoreError.decodeFailed) ∧
      (ExecutePersistentCheck interfaceCodec
        (shmWith (persistentCheckKey "w9".data) "x".data) freeLocks "w9".data ⟨7, 8⟩
        (fun st => (st, 0))).store = ⟨7, 8⟩) :=
  ⟨load_undecodable_fatal.1 interfaceCodec (shmWith "w9k".data "x".data) "w9k".data
      ⟨7, 8⟩ "x".data (by decide) (by decide) (by decide),
    load_undecodable_fatal.2 interfaceCodec
      (shmWith (persistentCheckKey "w9".data) "x".data) freeLocks "w9".data ⟨7, 8⟩
      (fun st => (st, 0)) "x".data (by decide) (by decide) (by decide) rfl⟩

/-- C3 (failing evaluation): `baseResource.storePersistentData` opens the
region with the read-only, non-truncating `shmOpenFlags`
(`nagocheck/resource.go:27` used at line 115), so a save over existing prior
content fails with a write error and leaves the prior bytes intact — the
create-or-truncate overwrite the claim describes never happens on this path.
`SavePersistentStore` (`shared/store.go:62`) does open with
`O_WRONLY|O_TRUNC`, and the revised constants in `src/unnamed/part_005`
(`shmWriteFlags`) fix the slip, so the claim matches the evident intent. -/
theorem storePersistentData_readonly_write_fails :
    (storePersistentData interfaceCodec (shmWith "c3".data "OLD".data)
      ⟨"c3".data, ⟨1, 2⟩⟩).2 = some StoreError.writeFailed ∧
    (storePersistentData interfaceCodec (shmWith "c3".data "OLD".data)
      ⟨"c3".data, ⟨1, 2⟩⟩).1.regions "c3".data = some "OLD".data := by
  exact ⟨rfl, rfl⟩

/-- C1 (counterexample): with a configured persistence key and a probe
callback that mutates the state and then returns an error,
`baseResource.Probe` (`nagocheck/resource.go:49-64`) returns the probe error
with the mutated in-memory state, but the run's access trace holds exactly one
region open — the load's.  `storePersistentData` with a non-empty key
unconditionally opens the region, so an attempted save would have left a
second open in the trace: no save is attempted after a probe error,
contradicting the claim. -/
theorem probe_error_skips_save_cex :
    (baseResourceProbe interfaceCodec
        (fun st => (⟨st.previousTxErrors + 1, st.previousRxErrors⟩, some (),
          ([] : List Nat)))
        (shmWith "c1".data []) ⟨"c1".data, ⟨0, 0⟩⟩).error =
      some ProbeError.probeFailed ∧
    (baseResourceProbe interfaceCodec
        (fun st => (⟨st.previousTxErrors + 1, st.previousRxErrors⟩, some (),
          ([] : List Nat)))
        (shmWith "c1".data []) ⟨"c1".data, ⟨0, 0⟩⟩).resource.state = ⟨1, 0⟩ ∧
    (baseResourceProbe interfaceCodec
        (fun st => (⟨st.previousTxErrors + 1, st.previousRxErrors⟩, some (),
          ([] : List Nat)))
        (shmWith "c1".data []) ⟨"c1".data, ⟨0, 0⟩⟩).shm.trace =
      [Event.opened "c1".data shmOpenFlags] := by
  decide

/-- C1 (amended): after a successful load, a save of the (possibly mutated)
state is attempted iff the probe callback succeeded: on a probe error the
method returns the probe's error immediately and performs no further durable
store access, while on probe success the save runs and its error, if any, is
the one surfaced to the caller. -/
theorem baseResourceProbe_save_iff_probe_ok {α μ : Type} (c : Codec α)
    (probe : α → α × Option Unit × List μ) (s : Shm) (r : BaseResource α)
    (hload : (loadPersistentData c s r).2.1 = none) :
    ((probe (loadPersistentData c s r).2.2.state).2.1 ≠ none →
      (baseResourceProbe c probe s r).error = some ProbeError.probeFailed ∧
      (baseResourceProbe c probe s r).shm = (loadPersistentData c s r).1) ∧
    ((probe (loadPersistentData c s r).2.2.state).2.1 = none →
      (baseResourceProbe c probe s r).shm =
        (storePersistentData c (loadPersistentData c s r).1
          { (loadPersistentData c s r).2.2 with
            state := (probe (loadPersistentData c s r).2.2.state).1 }).1 ∧
      (baseResourceProbe c probe s r).error =
        Option.map ProbeError.storeFailed
          (storePersistentData c (loadPersistentData c s r).1
            { (loadPersistentData c s r).2.2 with
              state := (probe (loadPersistentData c s r).2.2.state).1 }).2) := by
  rcases hld : loadPersistentData c s r with ⟨s₁, err, r₁⟩
  rw [hld] at hload
  dsimp only at hload
  subst hload
  unfold baseResourceProbe
  rw [hld]
  dsimp only
  rcases hp : probe r₁.state with ⟨st, perr, ms⟩
  dsimp only
  cases perr with
  | some u =>
    refine ⟨fun _ => ⟨rfl, rfl⟩, fun hc => ?_⟩
    simp at hc
  | none =>
    refine ⟨fun hc => absurd rfl hc, fun _ => ?_⟩
    rcases hst : storePersistentData c s₁ { r₁ with state := st } with ⟨s₂, serr⟩
    cases serr <;> exact ⟨rfl, rfl⟩

/-- Witness for the amended C1: with a succeeding probe the surfaced error is
exactly the save's error (mapped into the probe-error type). -/
theorem baseResourceProbe_save_iff_probe_ok_witness :
    (baseResourceProbe interfaceCodec
        (fun st => (st, (none : Option Unit), ([] : List Nat)))
        (shmWith "c1w".data []) ⟨"c1w".data, ⟨0, 0⟩⟩).error =
      Option.map ProbeError.storeFailed
        (storePersistentData interfaceCodec
          (loadPersistentData interfaceCodec (shmWith "c1w".data [])
            ⟨"c1w".data, ⟨0, 0⟩⟩).1
          ⟨"c1w".data, ⟨0, 0⟩⟩).2 :=
  ((baseResourceProbe_save_iff_probe_ok interfaceCodec
      (fun st => (st, (none : Option Unit), ([] : List Nat)))
      (shmWith "c1w".data []) ⟨"c1w".data, ⟨0, 0⟩⟩ (by decide)).2 rfl).2

/-- C2: for a fixed persistence key, any interleaving of `n` invocations that
each acquire the guard's lock, load the stored counter, increment it and save
it back preserves mutual exclusion — at most one invocation is ever inside
its Load→mutate→Save critical section — and loses no update: every complete
run leaves the stored value reflecting exactly `n` increments. -/
theorem guarded_increments_no_lost_updates (n v₀ : Nat) (sched : List (Fin n)) :
    (∀ p q : Fin n, inCS (guardRun (initGuard n v₀) sched) p →
      inCS (guardRun (initGuard n v₀) sched) q → p = q) ∧
    ((∀ p, (guardRun (initGuard n v₀) sched).pc p = 5) →
      (guardRun (initGuard n v₀) sched).val = v₀ + n) := by
  have hInv := guardInv_run (guardInv_init n v₀) sched
  exact ⟨fun p q hp hq => guardInv_mutex hInv hp hq, fun hall => guardInv_final hInv hall⟩

/-- Witness for C2: two overlapping invocations under a contended interleaving
(the second invocation's first acquire attempt fails while the first holds the
lock) finish with the counter at exactly 2. -/
theorem guarded_increments_no_lost_updates_witness :
    (guardRun (initGuard 2 0) [0, 1, 0, 0, 0, 0, 1, 1, 1, 1, 1]).val = 0 + 2 :=
  (guarded_increments_no_lost_updates 2 0 [0, 1, 0, 0, 0, 0, 1, 1, 1, 1, 1]).2
    (by decide)

/-- C4 (counterexample): a coordinator run that acquires the lock and then
panics on a load decode failure releases the OS-level lock (the deferred
unlock) but leaves the lock's backing file in place — `syscall.Unlink` runs
only on the success path (`shared/plugin.go:151`) — contradicting the claim
that the artifact no longer exists on every exit path. -/
theorem lock_artifact_survives_panic_cex :
    (ExecutePersistentCheck interfaceCodec
        (shmWith (persistentCheckKey "c4".data) "x".data) freeLocks "c4".data ⟨0, 0⟩
        (fun st => (st, 0))).outcome =
      RunOutcome.panicked (PanicReason.loadFailed StoreError.decodeFailed) ∧
    (ExecutePersistentCheck interfaceCodec
        (shmWith (persistentCheckKey "c4".data) "x".data) freeLocks "c4".data ⟨0, 0⟩
        (fun st => (st, 0))).locks.locked
      (flockPath (persistentCheckKey "c4".data)) = false ∧
    (ExecutePersistentCheck interfaceCodec
        (shmWith (persistentCheckKey "c4".data) "x".data) freeLocks "c4".data ⟨0, 0⟩
        (fun st => (st, 0))).locks.present
      (flockPath (persistentCheckKey "c4".data)) = true := by
  decide

/-- C4 (amended): on every exit path of a coordinator run that acquired the
lock, the OS-level lock is released and a subsequent `Acquire` on the same key
succeeds immediately; the lock's backing file, however, is removed only on
normal completion — after a fatal load/save failure it remains on disk,
merely unlocked. -/
theorem executePersistentCheck_release_all_paths {σ : Type} (c : Codec σ) (s : Shm)
    (L : LockState) (uk : List Char) (store : σ) (check : σ → σ × Nat)
    (hL : L.locked (flockPath (persistentCheckKey uk)) = false) :
    (ExecutePersistentCheck c s L uk store check).locks.locked
      (flockPath (persistentCheckKey uk)) = false ∧
    (∀ code, (ExecutePersistentCheck c s L uk store check).outcome =
        RunOutcome.exited code →
      (ExecutePersistentCheck c s L uk store check).locks.present
        (flockPath (persistentCheckKey uk)) = false) ∧
    (tryLock (ExecutePersistentCheck c s L uk store check).locks
      (flockPath (persistentCheckKey uk))).2 = true := by
  unfold ExecutePersistentCheck
  rcases hld : LoadPersistentStore c s (persistentCheckKey uk) store with ⟨s₁, err, st₁⟩
  cases err with
  | some e =>
    refine ⟨?_, ?_, ?_⟩ <;> simp [tryLock, hL, hld, flockUnlock]
  | none =>
    rcases hchk : check st₁ with ⟨st₂, code⟩
    rcases hsv : SavePersistentStore c s₁ (persistentCheckKey uk) st₂ with ⟨s₂, serr⟩
    cases serr with
    | some e =>
      refine ⟨?_, ?_, ?_⟩ <;> simp [tryLock, hL, hld, hchk, hsv, flockUnlock, unlink]
    | none =>
      refine ⟨?_, ?_, ?_⟩ <;> simp [tryLock, hL, hld, hchk, hsv, flockUnlock, unlink]

/-- Witness for the amended C4: a normal run from a free lock table ends with
the lock released, the artifact removed, and an immediate re-acquire
succeeding. -/
theorem executePersistentCheck_release_all_paths_witness :
    (ExecutePersistentCheck interfaceCodec emptyShm freeLocks "c4w".data ⟨0, 0⟩
        (fun st => (st, 0))).locks.locked
      (flockPath (persistentCheckKey "c4w".data)) = false ∧
    (∀ code, (ExecutePersistentCheck interfaceCodec emptyShm freeLocks "c4w".data ⟨0, 0⟩
        (fun st => (st, 0))).outcome = RunOutcome.exited code →
      (ExecutePersistentCheck interfaceCodec emptyShm freeLocks "c4w".data ⟨0, 0⟩
        (fun st => (st, 0))).locks.present
        (flockPath (persistentCheckKey "c4w".data)) = false) ∧
    (tryLock (ExecutePersistentCheck interfaceCodec emptyShm freeLocks "c4w".data ⟨0, 0⟩
        (fun st => (st, 0))).locks
      (flockPath (persistentCheckKey "c4w".data))).2 = true :=
  executePersistentCheck_release_all_paths interfaceCodec emptyShm freeLocks "c4w".data
    ⟨0, 0⟩ (fun st => (st, 0)) rfl

/-- C5 (counterexample): key derivation is not injective on distinct
(check name, discriminator) pairs.  With the revised derivation
(`src/unnamed/part_006:62-67`) the separator can be redistributed across the
name/discriminator boundary, and the `nagocheck/resource.go:43-47` derivation
concatenates the parts with no separator (and no lower-casing) at all, so in
both versions two distinct pairs produce the same persistence key. -/
theorem resourcePersistence_collision_cex :
    ResourcePersistenceRev "a-b".data "c".data =
      ResourcePersistenceRev "a".data "b-c".data ∧
    ("a-b".data ≠ "a".data) ∧
    ResourcePersistence "ab".data "c".data = ResourcePersistence "a".data "bc".data ∧
    ("ab".data ≠ "a".data) := by
  decide

/-- C5 (amended): the revised key derivation is a deterministic pure function
of (namespace, check name, discriminator) producing the documented
lower-cased `.nagocheck-<name>-<discriminator>` format, and it is injective
on the pairs used in practice: those whose components are already lower-case
and whose check name avoids the separator character.  Without these
restrictions distinct pairs can collide (see the counterexample). -/
theorem resourcePersistenceRev_injective_on_sep_free {n₁ d₁ n₂ d₂ : List Char}
    (hn₁ : n₁.map Char.toLower = n₁) (hd₁ : d₁.map Char.toLower = d₁)
    (hn₂ : n₂.map Char.toLower = n₂) (hd₂ : d₂.map Char.toLower = d₂)
    (hs₁ : '-' ∉ n₁) (hs₂ : '-' ∉ n₂)
    (h : ResourcePersistenceRev n₁ d₁ = ResourcePersistenceRev n₂ d₂) :
    n₁ = n₂ ∧ d₁ = d₂ := by
  have hfix : ∀ (n d : List Char), n.map Char.toLower = n → d.map Char.toLower = d →
      ResourcePersistenceRev n d = ".nagocheck-".data ++ (n ++ '-' :: d) := by
    intro n d hn hd
    have hsep : List.map Char.toLower ('-' :: d) = '-' :: d := by
      rw [List.map_cons, hd, show Char.toLower '-' = '-' from by decide]
    unfold ResourcePersistenceRev
    rw [List.append_assoc, List.map_append, List.map_append, hn, hsep,
      show List.map Char.toLower ".nagocheck-".data = ".nagocheck-".data from by decide]
  rw [hfix n₁ d₁ hn₁ hd₁, hfix n₂ d₂ hn₂ hd₂] at h
  exact append_cons_sep_inj hs₁ hs₂ (List.append_cancel_left h)

/-- Witness for the amended C5: the derivation applied to lower-case,
separator-free inputs is injective at a concrete pair. -/
theorem resourcePersistenceRev_injective_on_sep_free_witness :
    "load".data = "load".data ∧ "eth0".data = "eth0".data :=
  resourcePersistenceRev_injective_on_sep_free (by decide) (by decide) (by decide)
    (by decide) (by decide) (by decide) rfl

/-- C6: the `RetryDuring` loop at the constants `ensureFlock` passes (10 s
timeout, 100 ms retry delay) terminates for every behaviour of the retried
function; its elapsed time accounts one sleep of the retry delay between
consecutive attempts; it attempts again only after failures; it never reports
failure before the elapsed time strictly exceeds the timeout; and once the
timeout is exceeded it stops retrying — a failing run makes at most
`timeout/delay + 2` attempts rather than blocking indefinitely. -/
theorem retryDuring_terminates_within_timeout (f : Nat → Bool) (dur : Nat → Nat) :
    (RetryDuring ensureFlockTimeout ensureFlockDelay f dur).isSome = true ∧
    (∀ r, RetryDuring ensureFlockTimeout ensureFlockDelay f dur = some r →
      r.elapsed = durSum dur 0 r.attempts + (r.attempts - 1) * ensureFlockDelay ∧
      (∀ i, i + 1 < r.attempts → f i = false) ∧
      (r.success = false → ensureFlockTimeout < r.elapsed ∧
        (r.attempts - 2) * ensureFlockDelay ≤ ensureFlockTimeout)) := by
  constructor
  · unfold RetryDuring
    exact retryGo_isSome f dur (ensureFlockTimeout + 2) 0 0
      (by norm_num [ensureFlockTimeout, ensureFlockDelay])
      (by norm_num [ensureFlockTimeout, ensureFlockDelay])
  · intro r h
    unfold RetryDuring at h
    obtain ⟨hpos, hel, hmono, _, hfail⟩ := retryGo_spec _ 0 0 r h
    refine ⟨by simpa using hel, fun i hi => hmono i (Nat.zero_le i) hi, fun hs => ?_⟩
    obtain ⟨_, ht, hb⟩ := hfail hs
    refine ⟨ht, ?_⟩
    rcases Nat.lt_or_ge r.attempts 2 with h2 | h2
    · have hz : r.attempts - 2 = 0 := by omega
      rw [hz, Nat.zero_mul]
      exact Nat.zero_le _
    · simpa using hb (by omega)

/-- Witness for C6: a permanently contended lock makes the loop fail after 102
attempts with 10100 ms elapsed — strictly past the 10 s timeout, and within
the attempt bound. -/
theorem retryDuring_terminates_within_timeout_witness :
    ensureFlockTimeout < 10100 ∧ (102 - 2) * ensureFlockDelay ≤ ensureFlockTimeout :=
  ((retryDuring_terminates_within_timeout (fun _ => false) (fun _ => 0)).2
    ⟨false, 102, 10100⟩ (by decide)).2.2 rfl

end Nagocheck
